import Mathlib

set_option maxHeartbeats 1000000

/-!
Verification of the skills-stylistic-extractor pipeline.

The repository contains two symmetric Python pipelines
(`src/coding_stylistic_extractor.py` and `src/writing_stylistic_extractor.py`)
that scan a corpus directory for sample files, read them, assemble a fixed
instructional prompt around the samples, send the prompt to a model endpoint,
record the exchange in an append-only conversation history, and persist the
reply to an output file.

This development shallowly embeds that pipeline.  The filesystem and the
model endpoint are abstracted as functions supplied through an `Env` record
(`rglob` for `Path.rglob`, `readFile` for `open(...).read()` where `none`
models a raised exception, `api` for `client.messages.create` where `none`
models a raised exception, `writeOk` for whether the output-file write
succeeds).  Everything else is translated directly from the Python source:
the two pipelines differ only in extension defaults, size metric, sample
block format and template text, captured by a `PipelineConfig` with the two
concrete instances `codingConfig` and `writingConfig`.
-/

/-- One loaded corpus file, as built by `read_files`
(the dict with keys `path`, `content`, `lines`/`words`). -/
structure Sample where
  path : String
  content : String
  size_metric : Nat
  deriving DecidableEq

/-- Inner loop of `scan_repository` for a single extension: append each
match, breaking out of the (inner) loop once the accumulated list has
reached `max_files` entries.  Mirrors
`for filepath in self.repo_path.rglob(...): code_files.append(filepath);
if len(code_files) >= max_files: break`. -/
def scanExt (max_files : Nat) : List String → List String → List String
  | acc, [] => acc
  | acc, p :: ps =>
    let acc' := acc ++ [p]
    if max_files ≤ acc'.length then acc' else scanExt max_files acc' ps

/-- `scan_repository(max_files, extensions)`: for each extension, enumerate
the matches of `rglob` for that extension, accumulating into one list with
the per-extension early stop of `scanExt`. -/
def scan_repository (rglob : String → List String) (max_files : Nat)
    (extensions : List String) : List String :=
  extensions.foldl (fun acc ext => scanExt max_files acc (rglob ext)) []

/-- Python `str.splitlines` line-boundary characters. -/
def isLineBreak (c : Char) : Bool :=
  c == '\n' || c == '\r' || c == Char.ofNat 0x0b || c == Char.ofNat 0x0c ||
  c == Char.ofNat 0x1c || c == Char.ofNat 0x1d || c == Char.ofNat 0x1e ||
  c == Char.ofNat 0x85 || c == Char.ofNat 0x2028 || c == Char.ofNat 0x2029

/-- Accumulator pass of Python `str.splitlines`: `cur` holds the current
(reversed) line; every line-boundary character terminates a line, a `\r\n`
pair counts as one boundary, and a final unterminated segment counts only
if nonempty. -/
def splitlinesAux (cur : List Char) : List Char → List (List Char)
  | [] => if cur = [] then [] else [cur.reverse]
  | '\r' :: '\n' :: rest => cur.reverse :: splitlinesAux [] rest
  | c :: rest =>
    if isLineBreak c then cur.reverse :: splitlinesAux [] rest
    else splitlinesAux (c :: cur) rest

/-- Python `content.splitlines()`. -/
def splitlines (l : List Char) : List (List Char) :=
  splitlinesAux [] l

/-- `lines = len(content.splitlines())`, the size metric of the coding
pipeline. -/
def lineMetric (content : String) : Nat :=
  (splitlines content.data).length

/-- Whitespace characters recognised by Python `str.split()` with no
arguments (`str.isspace`). -/
def isPySpace (c : Char) : Bool :=
  c == ' ' || c == '\t' || c == '\n' || c == '\r' ||
  c == Char.ofNat 0x0b || c == Char.ofNat 0x0c ||
  c == Char.ofNat 0x1c || c == Char.ofNat 0x1d || c == Char.ofNat 0x1e ||
  c == Char.ofNat 0x1f || c == Char.ofNat 0x85 || c == Char.ofNat 0xa0 ||
  c == Char.ofNat 0x1680 || c == Char.ofNat 0x2000 || c == Char.ofNat 0x2001 ||
  c == Char.ofNat 0x2002 || c == Char.ofNat 0x2003 || c == Char.ofNat 0x2004 ||
  c == Char.ofNat 0x2005 || c == Char.ofNat 0x2006 || c == Char.ofNat 0x2007 ||
  c == Char.ofNat 0x2008 || c == Char.ofNat 0x2009 || c == Char.ofNat 0x200a ||
  c == Char.ofNat 0x2028 || c == Char.ofNat 0x2029 || c == Char.ofNat 0x202f ||
  c == Char.ofNat 0x205f || c == Char.ofNat 0x3000

/-- Accumulator pass of Python `str.split()` (split on runs of whitespace,
discarding empty tokens). -/
def splitWsAux (cur : List Char) : List Char → List (List Char)
  | [] => if cur = [] then [] else [cur.reverse]
  | c :: rest =>
    if isPySpace c then
      if cur = [] then splitWsAux [] rest
      else cur.reverse :: splitWsAux [] rest
    else splitWsAux (c :: cur) rest

/-- `words = len(content.split())`, the size metric of the writing
pipeline. -/
def wordMetric (content : String) : Nat :=
  (splitWsAux [] content.data).length

/-- `read_files(filepaths)`: read each path in order; a successful read
appends a sample record `{path: rel p, content, metric content}`, a failed
read (any exception) appends a warning for that path instead and the loop
continues.  Returns (samples, warned paths). -/
def read_files (readFile : String → Option String) (rel : String → String)
    (metric : String → Nat) : List String → List Sample × List String
  | [] => ([], [])
  | p :: ps =>
    let rest := read_files readFile rel metric ps
    match readFile p with
    | some content => (⟨rel p, content, metric content⟩ :: rest.1, rest.2)
    | none => (rest.1, p :: rest.2)

/-- One entry of `conversation_history`: a dict
`{"role": ..., "content": ...}`. -/
structure PromptTurn where
  role : String
  content : String
  deriving DecidableEq

/-- The mutable fields of the extractor utility object: the client
credential read from the environment, `conversation_history` and
`current_draft`. -/
structure ExtractorState where
  api_key : String
  conversation_history : List PromptTurn
  current_draft : Option String
  deriving DecidableEq

/-- Python `sep.join(l)`. -/
def joinSep (sep : String) : List String → String
  | [] => ""
  | [x] => x
  | x :: y :: rest => x ++ sep ++ joinSep sep (y :: rest)

/-- The parameters in which the two symmetric pipelines differ. -/
structure PipelineConfig where
  default_extensions : List String
  metric : String → Nat
  blockOf : Sample → String
  promptIntro : String
  promptOutro : String

/-- Sample block of the coding pipeline:
`### File: {path}` + a fenced python block holding the content. -/
def codingBlock (s : Sample) : String :=
  "### File: " ++ s.path ++ "\n```python\n" ++ s.content ++ "\n```"

/-- Sample block of the writing pipeline: `### Sample: {path}` followed by
a blank line and the raw content. -/
def writingBlock (s : Sample) : String :=
  "### Sample: " ++ s.path ++ "\n\n" ++ s.content

/-- Text of the coding extraction prompt before `{combined_code}`. -/
def codingIntro : String :=
  "I want you to analyze these Python files from a coding samples repository and create a comprehensive coding style guide.

IMPORTANT: These files are SAMPLES of my personal coding style. The specific application context is NOT part of my coding style. Focus ONLY on the coding patterns, conventions, and formatting choices that are consistent across all samples, regardless of what the code does.

Your task is to:

1. **Identify patterns and conventions** that appear consistently across all files
2. **Create a detailed markdown style guide** that captures my personal and distinctive coding style patterns
3. **Include specific snippet examples** from my actual code showing the STYLE, not the application logic
4. **Make it prescriptive** so another AI could replicate my style exactly when writing ANY type of Python code

Analyze these aspects:

**Documentation:**
- Docstring format (Google/NumPy/Sphinx style?)
- What sections do I include? (Args, Returns, etc.)
- Level of detail in docstrings
- Module-level documentation patterns
- How I describe parameters and return values

**Type Hints:**
- Where and when do I use type annotations?
- Always on function signatures? Sometimes on variables?
- Complex types (Union, Optional, List, Dict patterns)

**Naming Conventions:**
- Variable naming (length, descriptiveness, patterns)
- Function naming (verbs, patterns)
- Class naming
- Constants (if any)
- Private/protected members (underscore usage)

**Code Organization:**
- Import ordering and grouping
- Class structure (method ordering, organization)
- File structure patterns
- Global variables and constants placement

**Comments:**
- When do I add comments?
- Inline vs block comments
- Comment style and detail level
- What do I explain vs what do I leave uncommented?

**Code Style:**
- Line length preferences
- Indentation patterns
- Blank line usage
- String quotes (single vs double)

**Python Idioms:**
- List/dict comprehensions usage
- Use of decorators
- Context managers
- Generators and iterators
- Exception handling patterns

**Distinctive Patterns:**
- Any unique or characteristic patterns you notice
- Preferred libraries or approaches
- Code complexity preferences
- How I structure error handling
- Logging patterns

REMEMBER: Extract only the STYLE patterns that are consistent across samples. Do NOT include application-specific conventions. Focus on HOW I write code, not WHAT the code does.

Here are my Python code samples:

"

/-- Text of the coding extraction prompt after `{combined_code}`. -/
def codingOutro : String :=
  "

Create a markdown document with clear sections, snippet examples showing STYLE patterns, and actionable rules.
Format it as a professional style guide that could be given to a coding agent for writing ANY Python code in my style."

/-- Text of the writing extraction prompt before `{combined_writing}`. -/
def writingIntro : String :=
  "I want you to analyze these writing samples and create a comprehensive writing style guide.

IMPORTANT: These texts are SAMPLES of my personal writing style. The specific subject matter is NOT part of my writing style. Focus ONLY on the writing patterns, conventions, and stylistic choices that are consistent across all samples, regardless of what the content is about.

Your task is to:

1. **Identify patterns and conventions** that appear consistently across all writing samples
2. **Create a detailed markdown style guide** that captures my personal and distinctive writing style
3. **Include specific examples** from my actual writing showing the STYLE, not the subject matter
4. **Make it prescriptive** so another AI could replicate my style exactly when writing about ANY topic

Analyze these aspects:

**Sentence Structure:**
- Sentence length patterns (short, medium, long, varied)
- Complexity (simple, compound, complex sentences)
- Use of subordinate clauses
- Parallel structure usage

**Paragraph Organization:**
- Paragraph length preferences
- Topic sentence patterns
- How ideas are developed within paragraphs
- Transition patterns between paragraphs

**Vocabulary and Word Choice:**
- Formality level (academic, professional, casual)
- Technical vs. accessible language balance
- Specific vs. general terminology
- Active vs. passive voice preference

**Tone and Voice:**
- Academic, professional, conversational, authoritative
- First person, third person usage
- Objectivity vs. subjectivity
- Hedging language patterns (may, might, could, possibly)

**Punctuation Patterns:**
- Comma usage patterns
- Semicolon and colon usage
- Em dash, parentheses usage
- List formatting (numbered, bulleted)

**Rhetorical Devices:**
- Use of questions
- Use of examples and analogies
- Enumeration patterns (firstly, secondly, etc.)
- Emphasis techniques (italics, bold, quotation marks)

**Academic/Technical Writing Patterns:**
- Citation style (if present)
- How definitions are introduced
- How concepts are explained
- Use of technical jargon
- Abbreviation patterns

**Text Organization:**
- How sections are structured
- Use of headers and subheaders
- Introduction and conclusion patterns
- How arguments are built

**Distinctive Patterns:**
- Any unique or characteristic phrases
- Preferred sentence openers
- Preferred ways to introduce new concepts
- Preferred ways to conclude ideas
- Use of specific connectors (however, therefore, furthermore)

REMEMBER: Extract only the WRITING STYLE patterns that are consistent across samples. Do NOT include subject-specific conventions. Focus on HOW I write, not WHAT I write about.

Here are my writing samples:

"

/-- Text of the writing extraction prompt after `{combined_writing}`. -/
def writingOutro : String :=
  "

Create a markdown document with clear sections, examples showing STYLE patterns, and actionable rules.
Format it as a professional writing style guide that could be given to a writing assistant for producing ANY type of text in my style."

/-- The coding pipeline parameters
(`src/coding_stylistic_extractor.py`). -/
def codingConfig : PipelineConfig :=
  ⟨[".py"], lineMetric, codingBlock, codingIntro, codingOutro⟩

/-- The writing pipeline parameters
(`src/writing_stylistic_extractor.py`). -/
def writingConfig : PipelineConfig :=
  ⟨[".md", ".txt"], wordMetric, writingBlock, writingIntro, writingOutro⟩

/-- The assembled prompt: fixed intro, the `"\n\n".join` of the sample
blocks (`combined_code` / `combined_writing`), fixed outro. -/
def extraction_prompt (cfg : PipelineConfig) (samples : List Sample) : String :=
  cfg.promptIntro ++ joinSep "\n\n" (samples.map cfg.blockOf) ++ cfg.promptOutro

/-- `extraction(samples)`: assemble the prompt, call the endpoint once.
On success (`some reply`) store the reply as `current_draft` and append the
user turn and the assistant turn to `conversation_history`; on failure
(`none`, a raised exception) the state is untouched and the exception
propagates (modelled by the `none` result). -/
def extraction (cfg : PipelineConfig) (api : String → Option String)
    (samples : List Sample) (st : ExtractorState) :
    Option String × ExtractorState :=
  let prompt := extraction_prompt cfg samples
  match api prompt with
  | none => (none, st)
  | some reply =>
    (some reply,
      { st with
        current_draft := some reply,
        conversation_history := st.conversation_history ++
          [⟨"user", prompt⟩, ⟨"assistant", reply⟩] })

/-- The state of the output file: `none` when absent. -/
structure FS where
  output : Option String
  deriving DecidableEq

/-- Observable outcome of one `save_draft` call. -/
inductive SaveOutcome where
  | noContent
  | saved
  | writeFailed
  deriving DecidableEq

/-- `save_draft(content=None)`: default the argument to `current_draft`;
if still `None`, print a message and return without touching the file;
otherwise overwrite the output file with the text, and on a write failure
print a warning and return normally. -/
def save_draft (writeOk : Bool) (st : ExtractorState)
    (content : Option String) (fs : FS) : FS × SaveOutcome :=
  let eff := match content with
    | none => st.current_draft
    | some c => some c
  match eff with
  | none => (fs, SaveOutcome.noContent)
  | some text =>
    if writeOk then (⟨some text⟩, SaveOutcome.saved)
    else (fs, SaveOutcome.writeFailed)

/-- The ambient world of one run: filesystem answers and the model
endpoint. -/
structure Env where
  root_exists : Bool
  root_is_dir : Bool
  rglob : String → List String
  rel : String → String
  readFile : String → Option String
  api : String → Option String
  writeOk : Bool

/-- What a run observably did: the prompts sent to the endpoint and
whether the final completion message was printed. -/
structure RunTrace where
  prompts_sent : List String
  completed : Bool
  deriving DecidableEq

/-- `main()`: create the skill-set directory, validate the corpus root
(exists, is a directory), scan (MAX_FILES = 20, the pipeline's default
extensions), read, extract, save, report completion.  Early returns leave
the output file untouched with no endpoint call; an extraction failure
propagates the exception (no save, no completion message). -/
def mainRun (cfg : PipelineConfig) (api_key : String) (env : Env) (fs : FS) :
    FS × RunTrace :=
  if !env.root_exists then (fs, ⟨[], false⟩)
  else if !env.root_is_dir then (fs, ⟨[], false⟩)
  else
    let st : ExtractorState := ⟨api_key, [], none⟩
    let files := scan_repository env.rglob 20 cfg.default_extensions
    if files = [] then (fs, ⟨[], false⟩)
    else
      let samples := (read_files env.readFile env.rel cfg.metric files).1
      if samples = [] then (fs, ⟨[], false⟩)
      else
        let result := extraction cfg env.api samples st
        match result.1 with
        | none => (fs, ⟨[extraction_prompt cfg samples], false⟩)
        | some _ =>
          let saved := save_draft env.writeOk result.2 none fs
          (saved.1, ⟨[extraction_prompt cfg samples], true⟩)

/-- The extractor states that can arise in a run: the freshly initialised
object, and the result of any `extraction` call (`scan_repository`,
`read_files` and `save_draft` do not modify these fields). -/
inductive Reachable : ExtractorState → Prop where
  | init (k : String) : Reachable ⟨k, [], none⟩
  | extract (cfg : PipelineConfig) (api : String → Option String)
      (samples : List Sample) (st : ExtractorState) :
      Reachable st → Reachable (extraction cfg api samples st).2

/-- The role that must follow `r` in an alternating conversation. -/
def otherRole (r : String) : String :=
  if r = "user" then "assistant" else "user"

/-- `alternatesFrom r roles`: the role sequence strictly alternates,
starting with `r`. -/
def alternatesFrom : String → List String → Bool
  | _, [] => true
  | r, x :: xs => (x == r) && alternatesFrom (otherRole r) xs

/-- No two adjacent entries are equal. -/
def noTwoConsecutiveSameRole : List String → Bool
  | [] => true
  | [_] => true
  | x :: y :: rest => !(x == y) && noTwoConsecutiveSameRole (y :: rest)

/-- The conversation histories consisting of complete (user, assistant)
exchanges, in order. -/
def pairsToTurns : List (String × String) → List PromptTurn
  | [] => []
  | (p, r) :: rest => ⟨"user", p⟩ :: ⟨"assistant", r⟩ :: pairsToTurns rest

/-- `pat` occurs in `s` starting at position `i`. -/
def occursAt (pat s : List Char) (i : Nat) : Prop :=
  ∃ t, pat ++ t = s.drop i

/-- Number of positions of `s` at which `pat` occurs. -/
def countOccs (pat s : List Char) : Nat :=
  ((List.range (s.length + 1)).filter (fun i => pat.isPrefixOf (s.drop i))).length

/-- Modelled from the spec (refinement reading of §4.2): the
"number of newline-delimited segments" of a text, i.e. the segments
obtained by splitting on the newline character alone. -/
def splitOnNLAux (cur : List Char) : List Char → List (List Char)
  | [] => [cur.reverse]
  | c :: rest =>
    if c = '\n' then cur.reverse :: splitOnNLAux [] rest
    else splitOnNLAux (c :: cur) rest

/-- Modelled from the spec: the newline-delimited segments of a string. -/
def newlineDelimitedSegments (content : String) : List (List Char) :=
  splitOnNLAux [] content.data

/-- Character-list counterpart of `joinSep`, used to reason about the
assembled prompt at the character level. -/
def joinSepL (sep : List Char) : List (List Char) → List Char
  | [] => []
  | [x] => x
  | x :: y :: rest => x ++ sep ++ joinSepL sep (y :: rest)

/-! Helper lemmas about the scanner. -/

theorem scanExt_length_le (m : Nat) (l : List String) :
    ∀ acc : List String, (scanExt m acc l).length ≤ max m acc.length + 1 := by
  induction l with
  | nil =>
    intro acc
    simp only [scanExt]
    exact le_trans (Nat.le_max_right _ _) (Nat.le_succ _)
  | cons p ps ih =>
    intro acc
    simp only [scanExt]
    split
    · simp only [List.length_append, List.length_singleton]
      omega
    · have h := ih (acc ++ [p])
      simp only [List.length_append, List.length_singleton] at *
      omega

theorem scan_repository_foldl_bound (rglob : String → List String) (m : Nat) :
    ∀ (exts : List String) (acc : List String),
      (exts.foldl (fun acc ext => scanExt m acc (rglob ext)) acc).length ≤
        max m acc.length + exts.length := by
  intro exts
  induction exts with
  | nil =>
    intro acc
    simp only [List.foldl_nil, List.length_nil, Nat.add_zero]
    exact Nat.le_max_right m acc.length
  | cons e es ih =>
    intro acc
    simp only [List.foldl_cons, List.length_cons]
    have h1 := ih (scanExt m acc (rglob e))
    have h2 := scanExt_length_le m (rglob e) acc
    omega

/-- C1 (corrected, counterexample): with `max_files = 0`, one matching file
and one extension, `scan_repository` returns one path, not at most zero. -/
theorem scan_repository_cap_counterexample :
    ¬ ((scan_repository (fun _ => ["a.py"]) 0 [".py"]).length ≤ 0) := by
  decide

/-- C1 (amended): the cap is enforced only inside each extension's
traversal, after appending; once the total reaches `max_files`, every
further extension can still contribute one more path (and with
`max_files = 0` each extension contributes one path when it has a match).
So the result holds at most `max_files` plus one path per extension. -/
theorem scan_repository_cap_plus_extensions (rglob : String → List String)
    (max_files : Nat) (extensions : List String) :
    (scan_repository rglob max_files extensions).length ≤
      max_files + extensions.length := by
  have h := scan_repository_foldl_bound rglob max_files extensions []
  simpa [scan_repository] using h

/-- C2: `read_files` returns exactly the samples of the readable paths, in
input order (it equals the `filterMap` of the successful reads), emits one
warning per failed path (the warned paths are exactly the failing paths, in
order), and returns `N - k` samples for `N` inputs with `k` failures; it is
a total function, so no per-file failure aborts the batch. -/
theorem read_files_skips_failures_in_order (readFile : String → Option String)
    (rel : String → String) (metric : String → Nat) (paths : List String) :
    (read_files readFile rel metric paths).1 =
      paths.filterMap
        (fun p => (readFile p).map (fun c => (⟨rel p, c, metric c⟩ : Sample)))
    ∧ (read_files readFile rel metric paths).2 =
        paths.filter (fun p => (readFile p).isNone)
    ∧ (read_files readFile rel metric paths).1.length =
        paths.length - (paths.filter (fun p => (readFile p).isNone)).length := by
  induction paths with
  | nil => simp [read_files]
  | cons p ps ih =>
    obtain ⟨h1, h2, h3⟩ := ih
    have hk := List.length_filter_le (fun p => (readFile p).isNone) ps
    cases hp : readFile p with
    | some c =>
      refine ⟨?_, ?_, ?_⟩
      · simp [read_files, hp, h1]
      · simp [read_files, hp, h2]
      · simp only [read_files, hp, List.filter_cons, Option.isNone_some,
          Bool.false_eq_true, if_false, List.length_cons]
        omega
    | none =>
      refine ⟨?_, ?_, ?_⟩
      · simp [read_files, hp, h1]
      · simp [read_files, hp, h2]
      · simp only [read_files, hp, List.filter_cons, Option.isNone_none,
          if_true, List.length_cons]
        omega

/-- C5: for one `extraction` call, a successful endpoint reply appends
exactly the user turn (the assembled prompt) followed by the assistant turn
(the reply) to the conversation history and stores the reply as the current
draft; a failed call leaves the entire state unchanged. -/
theorem extraction_atomic_append (cfg : PipelineConfig)
    (api : String → Option String) (samples : List Sample)
    (st : ExtractorState) (reply : String) :
    (api (extraction_prompt cfg samples) = some reply →
      (extraction cfg api samples st).2.conversation_history =
        st.conversation_history ++
          [⟨"user", extraction_prompt cfg samples⟩, ⟨"assistant", reply⟩]
      ∧ (extraction cfg api samples st).2.current_draft = some reply)
    ∧ (api (extraction_prompt cfg samples) = none →
        (extraction cfg api samples st).2 = st) := by
  constructor
  · intro h
    constructor <;> simp [extraction, h]
  · intro h
    simp [extraction, h]

/-- C5 witness: concrete success and failure instances. -/
theorem extraction_atomic_append_witness :
    ((extraction codingConfig (fun _ => some "reply") []
        ⟨"k", [], none⟩).2.conversation_history =
      [] ++ [⟨"user", extraction_prompt codingConfig []⟩,
             ⟨"assistant", "reply"⟩]
     ∧ (extraction codingConfig (fun _ => some "reply") []
          ⟨"k", [], none⟩).2.current_draft = some "reply")
    ∧ (extraction codingConfig (fun _ => none) [] ⟨"k", [], none⟩).2 =
        ⟨"k", [], none⟩ :=
  ⟨(extraction_atomic_append codingConfig (fun _ => some "reply") []
      ⟨"k", [], none⟩ "reply").1 rfl,
   (extraction_atomic_append codingConfig (fun _ => none) []
      ⟨"k", [], none⟩ "reply").2 rfl⟩

/-- C9: the environment-sourced credential does not influence the assembled
prompt or the written output: two runs that differ only in the credential
(and use the same endpoint reply function) produce identical file states
and identical traces, including the prompt string sent. -/
theorem credential_noninterference (cfg : PipelineConfig) (k1 k2 : String)
    (env : Env) (fs : FS) :
    mainRun cfg k1 env fs = mainRun cfg k2 env fs := by
  cases h1 : env.root_exists with
  | false => simp [mainRun, h1]
  | true =>
    cases h2 : env.root_is_dir with
    | false => simp [mainRun, h1, h2]
    | true =>
      by_cases hf : scan_repository env.rglob 20 cfg.default_extensions = []
      · simp [mainRun, h1, h2, hf]
      · by_cases hs : (read_files env.readFile env.rel cfg.metric
            (scan_repository env.rglob 20 cfg.default_extensions)).1 = []
        · simp [mainRun, h1, h2, hf, hs]
        · cases henv : env.api (extraction_prompt cfg
              ((read_files env.readFile env.rel cfg.metric
                (scan_repository env.rglob 20 cfg.default_extensions)).1)) with
          | none => simp [mainRun, extraction, h1, h2, hf, hs, henv]
          | some r =>
            simp [mainRun, extraction, save_draft, h1, h2, hf, hs, henv]

/-- C10: calling `save_draft` with no content argument while
`current_draft` is `None` returns without attempting a write, leaving the
output file (present or absent) exactly as it was. -/
theorem save_draft_none_frame (writeOk : Bool) (st : ExtractorState)
    (fs : FS) (h : st.current_draft = none) :
    save_draft writeOk st none fs = (fs, SaveOutcome.noContent) := by
  simp [save_draft, h]

/-- C10 witness: the fresh state with an existing output file. -/
theorem save_draft_none_frame_witness :
    (⟨"k", [], none⟩ : ExtractorState).current_draft = none ∧
    save_draft true ⟨"k", [], none⟩ none ⟨some "old"⟩ =
      (⟨some "old"⟩, SaveOutcome.noContent) :=
  ⟨rfl, save_draft_none_frame true ⟨"k", [], none⟩ ⟨some "old"⟩ rfl⟩

/-! Helper lemmas about the conversation history. -/

theorem pairsToTurns_append (l1 l2 : List (String × String)) :
    pairsToTurns (l1 ++ l2) = pairsToTurns l1 ++ pairsToTurns l2 := by
  induction l1 with
  | nil => rfl
  | cons x rest ih =>
    cases x
    simp [pairsToTurns, ih]

theorem reachable_shape (st : ExtractorState) (h : Reachable st) :
    ∃ pairs : List (String × String),
      st.conversation_history = pairsToTurns pairs := by
  induction h with
  | init k => exact ⟨[], rfl⟩
  | extract cfg api samples st' hst ih =>
    obtain ⟨pairs, hp⟩ := ih
    cases henv : api (extraction_prompt cfg samples) with
    | none => exact ⟨pairs, by simp [extraction, henv, hp]⟩
    | some r =>
      refine ⟨pairs ++ [(extraction_prompt cfg samples, r)], ?_⟩
      simp [extraction, henv, hp, pairsToTurns_append, pairsToTurns]

theorem alternatesFrom_pairs (pairs : List (String × String)) :
    alternatesFrom "user" ((pairsToTurns pairs).map PromptTurn.role) = true := by
  induction pairs with
  | nil => rfl
  | cons x rest ih =>
    cases x
    simp [pairsToTurns, alternatesFrom, otherRole, ih]

theorem noTwoConsecutive_pairs (pairs : List (String × String)) :
    noTwoConsecutiveSameRole
      ((pairsToTurns pairs).map PromptTurn.role) = true := by
  induction pairs with
  | nil => rfl
  | cons x rest ih =>
    cases x with
    | mk p r =>
      cases rest with
      | nil => simp [pairsToTurns, noTwoConsecutiveSameRole]
      | cons y rest2 =>
        cases y
        simp only [pairsToTurns, List.map_cons, noTwoConsecutiveSameRole] at *
        simp_all

/-- C4: in every reachable state the conversation history is a strictly
alternating user/assistant sequence starting with a user turn, two adjacent
turns never carry the same role, and every `extraction` call only ever
appends to the history (the old history is a prefix of the new one — it is
never reordered, mutated or truncated). -/
theorem conversation_history_alternates (st : ExtractorState)
    (cfg : PipelineConfig) (api : String → Option String)
    (samples : List Sample) (h : Reachable st) :
    alternatesFrom "user" (st.conversation_history.map PromptTurn.role) = true
    ∧ noTwoConsecutiveSameRole
        (st.conversation_history.map PromptTurn.role) = true
    ∧ ∃ t, st.conversation_history ++ t =
        (extraction cfg api samples st).2.conversation_history := by
  obtain ⟨pairs, hp⟩ := reachable_shape st h
  refine ⟨?_, ?_, ?_⟩
  · rw [hp]; exact alternatesFrom_pairs pairs
  · rw [hp]; exact noTwoConsecutive_pairs pairs
  · cases henv : api (extraction_prompt cfg samples) with
    | none => exact ⟨[], by simp [extraction, henv]⟩
    | some r =>
      exact ⟨[⟨"user", extraction_prompt cfg samples⟩, ⟨"assistant", r⟩],
        by simp [extraction, henv]⟩

/-- C4 witness: the freshly initialised state. -/
theorem conversation_history_alternates_witness :
    alternatesFrom "user"
      ((⟨"k", [], none⟩ : ExtractorState).conversation_history.map
        PromptTurn.role) = true
    ∧ noTwoConsecutiveSameRole
        ((⟨"k", [], none⟩ : ExtractorState).conversation_history.map
          PromptTurn.role) = true
    ∧ ∃ t, (⟨"k", [], none⟩ : ExtractorState).conversation_history ++ t =
        (extraction codingConfig (fun _ => none) []
          ⟨"k", [], none⟩).2.conversation_history :=
  conversation_history_alternates ⟨"k", [], none⟩ codingConfig
    (fun _ => none) [] (Reachable.init "k")

/-- C6: whenever the corpus root is missing, is not a directory, the scan
finds no files, or no file is readable, the run ends early: no prompt is
ever sent to the endpoint and the output file is untouched. -/
theorem early_exit_no_network_no_write (cfg : PipelineConfig) (key : String)
    (env : Env) (fs : FS)
    (h : env.root_exists = false ∨ env.root_is_dir = false
      ∨ scan_repository env.rglob 20 cfg.default_extensions = []
      ∨ (read_files env.readFile env.rel cfg.metric
          (scan_repository env.rglob 20 cfg.default_extensions)).1 = []) :
    (mainRun cfg key env fs).2.prompts_sent = []
    ∧ (mainRun cfg key env fs).1 = fs := by
  rcases h with h | h | h | h
  · simp [mainRun, h]
  · cases h1 : env.root_exists
    · simp [mainRun, h1]
    · simp [mainRun, h1, h]
  · cases h1 : env.root_exists
    · simp [mainRun, h1]
    · cases h2 : env.root_is_dir
      · simp [mainRun, h1, h2]
      · simp [mainRun, h1, h2, h]
  · cases h1 : env.root_exists
    · simp [mainRun, h1]
    · cases h2 : env.root_is_dir
      · simp [mainRun, h1, h2]
      · by_cases hf : scan_repository env.rglob 20 cfg.default_extensions = []
        · simp [mainRun, h1, h2, hf]
        · simp [mainRun, h1, h2, hf, h]

/-- C6 witness: a run whose corpus root does not exist. -/
theorem early_exit_no_network_no_write_witness :
    (mainRun codingConfig "k"
      ⟨false, true, fun _ => [], id, fun _ => none, fun _ => none, true⟩
      ⟨none⟩).2.prompts_sent = []
    ∧ (mainRun codingConfig "k"
        ⟨false, true, fun _ => [], id, fun _ => none, fun _ => none, true⟩
        ⟨none⟩).1 = ⟨none⟩ :=
  early_exit_no_network_no_write codingConfig "k"
    ⟨false, true, fun _ => [], id, fun _ => none, fun _ => none, true⟩
    ⟨none⟩ (Or.inl rfl)

/-- C8: `save_draft` with draft text overwrites the output file with
exactly that text when the write succeeds, and on a write failure returns
normally with a warning outcome leaving the file as it was; and a full run
whose extraction succeeded still reports completion even when the write
failed. -/
theorem save_overwrites_failure_warns_run_completes (writeOk : Bool)
    (st : ExtractorState) (text : String) (fs : FS) (cfg : PipelineConfig)
    (key : String) (env : Env) (fs0 : FS) (reply : String)
    (hroot : env.root_exists = true) (hdir : env.root_is_dir = true)
    (hscan : scan_repository env.rglob 20 cfg.default_extensions ≠ [])
    (hread : (read_files env.readFile env.rel cfg.metric
        (scan_repository env.rglob 20 cfg.default_extensions)).1 ≠ [])
    (happy : env.api (extraction_prompt cfg
        ((read_files env.readFile env.rel cfg.metric
          (scan_repository env.rglob 20 cfg.default_extensions)).1)) =
        some reply) :
    (save_draft writeOk st (some text) fs).1.output =
      (if writeOk then some text else fs.output)
    ∧ (save_draft writeOk st (some text) fs).2 =
        (if writeOk then SaveOutcome.saved else SaveOutcome.writeFailed)
    ∧ (mainRun cfg key env fs0).2.completed = true
    ∧ (mainRun cfg key env fs0).1.output =
        (if env.writeOk then some reply else fs0.output) := by
  refine ⟨?_, ?_, ?_, ?_⟩
  · cases writeOk <;> simp [save_draft]
  · cases writeOk <;> simp [save_draft]
  · simp [mainRun, hroot, hdir, hscan, hread, extraction, happy, save_draft]
  · cases hw : env.writeOk <;>
      simp [mainRun, hroot, hdir, hscan, hread, extraction, happy,
        save_draft, hw]

/-- C8 witness: a run with one readable file, a successful extraction and a
failing write; the run still completes and the file keeps its absence. -/
theorem save_overwrites_failure_warns_run_completes_witness :
    (save_draft false ⟨"k", [], none⟩ (some "t") ⟨some "old"⟩).1.output =
      (if false then some "t" else (⟨some "old"⟩ : FS).output)
    ∧ (save_draft false ⟨"k", [], none⟩ (some "t") ⟨some "old"⟩).2 =
        (if false then SaveOutcome.saved else SaveOutcome.writeFailed)
    ∧ (mainRun codingConfig "k"
        ⟨true, true, fun _ => ["f.py"], id, fun _ => some "x",
          fun _ => some "draft", false⟩ ⟨none⟩).2.completed = true
    ∧ (mainRun codingConfig "k"
        ⟨true, true, fun _ => ["f.py"], id, fun _ => some "x",
          fun _ => some "draft", false⟩ ⟨none⟩).1.output =
        (if (⟨true, true, fun _ => ["f.py"], id, fun _ => some "x",
            fun _ => some "draft", false⟩ : Env).writeOk then some "draft"
         else (⟨none⟩ : FS).output) :=
  save_overwrites_failure_warns_run_completes false ⟨"k", [], none⟩ "t"
    ⟨some "old"⟩ codingConfig "k"
    ⟨true, true, fun _ => ["f.py"], id, fun _ => some "x",
      fun _ => some "draft", false⟩ ⟨none⟩ "draft" rfl rfl
    (by decide) (by decide) rfl

/-! Helper lemmas about the size metrics. -/

theorem read_files_metric (readFile : String → Option String)
    (rel : String → String) (metric : String → Nat) (paths : List String)
    (s : Sample) (hs : s ∈ (read_files readFile rel metric paths).1) :
    s.size_metric = metric s.content := by
  have h1 := (read_files_skips_failures_in_order readFile rel metric paths).1
  rw [h1] at hs
  simp only [List.mem_filterMap] at hs
  obtain ⟨p, _, hmap⟩ := hs
  cases hrf : readFile p with
  | none => rw [hrf] at hmap; simp at hmap
  | some c =>
    rw [hrf] at hmap
    simp only [Option.map_some', Option.some_inj] at hmap
    rw [← hmap]

theorem splitlines_agrees_on_pure_newlines :
    ∀ (cur l : List Char),
      (∀ c ∈ l, isLineBreak c = true → c = '\n') →
      l.getLast? ≠ some '\n' →
      (l ≠ [] ∨ cur ≠ []) →
      (splitlinesAux cur l).length = (splitOnNLAux cur l).length := by
  intro cur l
  induction cur, l using splitlinesAux.induct with
  | case1 =>
    intro _ _ h3
    rcases h3 with h | h <;> simp at h
  | case2 cur hcur =>
    intro _ _ _
    simp [splitlinesAux, splitOnNLAux, hcur]
  | case3 cur rest ih =>
    intro honly _ _
    have h := honly '\r' (by simp) (by decide)
    simp at h
  | case4 cur c rest hno hbrk ih =>
    intro honly hlast hne
    have hc : c = '\n' := honly c (by simp) hbrk
    subst hc
    cases rest with
    | nil => simp at hlast
    | cons c2 rest2 =>
      have e1 : splitlinesAux cur ('\n' :: c2 :: rest2) =
          cur.reverse :: splitlinesAux [] (c2 :: rest2) := rfl
      have e2 : splitOnNLAux cur ('\n' :: c2 :: rest2) =
          cur.reverse :: splitOnNLAux [] (c2 :: rest2) := rfl
      rw [e1, e2]
      simp only [List.length_cons]
      have hih := ih (fun x hx hb => honly x (by simp [hx]) hb)
        (by rw [List.getLast?_cons_cons] at hlast; exact hlast)
        (Or.inl (by simp))
      omega
  | case5 cur c rest hno hnb ih =>
    intro honly hlast hne
    have hcn : c ≠ '\n' := by
      intro h
      exact hnb (by rw [h]; decide)
    have hlast' : rest.getLast? ≠ some '\n' := by
      cases rest with
      | nil => simp
      | cons a b => rw [List.getLast?_cons_cons] at hlast; exact hlast
    have honly' : ∀ x ∈ rest, isLineBreak x = true → x = '\n' :=
      fun x hx hb => honly x (by simp [hx]) hb
    have hih := ih honly' hlast' (Or.inr (List.cons_ne_nil c cur))
    have e2 : splitOnNLAux cur (c :: rest) = splitOnNLAux (c :: cur) rest := by
      simp only [splitOnNLAux]
      rw [if_neg hcn]
    rw [e2, ← hih]
    rw [splitlinesAux.eq_def]
    split
    · simp_all
    · rename_i rest1 heq
      rw [List.cons.injEq] at heq
      exact absurd heq.1 (by intro hr; exact hnb (by rw [hr]; decide))
    · rename_i c2 rest2 heq
      rw [List.cons.injEq] at heq
      obtain ⟨hc2, hr2⟩ := heq
      subst hc2
      subst hr2
      rw [if_neg hnb]

/-- C7 (corrected, counterexample): for the file content `a\rb` — which
contains no newline character at all, hence forms a single
newline-delimited segment — the coding pipeline records `size_metric = 2`,
because `str.splitlines` also splits on the carriage return. -/
theorem size_metric_newline_counterexample :
    ¬ (∀ s ∈ (read_files (fun _ => some "a\rb") id lineMetric ["p"]).1,
        s.size_metric = (newlineDelimitedSegments s.content).length) := by
  decide

/-- C7 (amended): every sample produced by `read_files` carries, at
creation, `size_metric = len(content.splitlines())` (code pipeline) or
`size_metric = len(content.split())`, the whitespace-delimited token count
(writing pipeline); samples are immutable values thereafter.  The
`splitlines` count agrees with the number of newline-delimited segments
whenever the content is nonempty, contains no line-boundary character
other than the newline, and does not end with a newline; in general
`splitlines` also breaks on `\r`, `\v`, `\f` and similar characters and
drops a trailing empty segment. -/
theorem size_metric_characterization :
    (∀ (readFile : String → Option String) (rel : String → String)
        (paths : List String) (s : Sample),
        s ∈ (read_files readFile rel lineMetric paths).1 →
        s.size_metric = (splitlines s.content.data).length)
    ∧ (∀ (readFile : String → Option String) (rel : String → String)
        (paths : List String) (s : Sample),
        s ∈ (read_files readFile rel wordMetric paths).1 →
        s.size_metric = (splitWsAux [] s.content.data).length)
    ∧ (∀ content : String,
        (∀ c ∈ content.data, isLineBreak c = true → c = '\n') →
        content.data ≠ [] → content.data.getLast? ≠ some '\n' →
        lineMetric content = (newlineDelimitedSegments content).length) := by
  refine ⟨?_, ?_, ?_⟩
  · intro readFile rel paths s hs
    exact read_files_metric readFile rel lineMetric paths s hs
  · intro readFile rel paths s hs
    exact read_files_metric readFile rel wordMetric paths s hs
  · intro content honly hne hlast
    exact splitlines_agrees_on_pure_newlines [] content.data honly hlast
      (Or.inl hne)

/-- C7 witness: a two-line sample for each pipeline and a newline-only
content for the agreement conjunct. -/
theorem size_metric_characterization_witness :
    (⟨"p", "a\nb", 2⟩ : Sample).size_metric =
      (splitlines (("a\nb" : String)).data).length
    ∧ (⟨"p", "a b", 2⟩ : Sample).size_metric =
        (splitWsAux [] (("a b" : String)).data).length
    ∧ lineMetric "a\nb" = (newlineDelimitedSegments "a\nb").length :=
  ⟨size_metric_characterization.1 (fun _ => some "a\nb") id ["p"]
      ⟨"p", "a\nb", 2⟩ (by decide),
   size_metric_characterization.2.1 (fun _ => some "a b") id ["p"]
      ⟨"p", "a b", 2⟩ (by decide),
   size_metric_characterization.2.2 "a\nb" (by decide) (by decide)
      (by decide)⟩

/-! Helper lemmas about substring occurrences in the assembled prompt. -/

theorem isPrefixOf_iff (l1 : List Char) :
    ∀ l2 : List Char, l1.isPrefixOf l2 = true ↔ ∃ t, l1 ++ t = l2 := by
  induction l1 with
  | nil =>
    intro l2
    simp [List.isPrefixOf]
  | cons a as ih =>
    intro l2
    cases l2 with
    | nil =>
      simp [List.isPrefixOf]
    | cons b bs =>
      simp only [List.isPrefixOf, Bool.and_eq_true, beq_iff_eq, ih,
        List.cons_append, List.cons.injEq]
      constructor
      · rintro ⟨rfl, t, rfl⟩
        exact ⟨t, rfl, rfl⟩
      · rintro ⟨t, rfl, rfl⟩
        exact ⟨rfl, t, rfl⟩

theorem occursAt_of_concat (pat u r : List Char) :
    occursAt pat (u ++ (pat ++ r)) u.length :=
  ⟨r, by rw [List.drop_left]⟩

theorem occursAt_within (u v w L : List Char) (p : Nat)
    (h : occursAt (u ++ (v ++ w)) L p) : occursAt v L (p + u.length) := by
  obtain ⟨t, ht⟩ := h
  refine ⟨w ++ t, ?_⟩
  have hdrop : L.drop (p + u.length) = (L.drop p).drop u.length := by
    rw [List.drop_drop, Nat.add_comm]
  rw [hdrop, ← ht]
  simp [List.append_assoc, List.drop_left']

theorem occursAt_le_length (pat s : List Char) (i : Nat) (hpat : pat ≠ [])
    (h : occursAt pat s i) : i ≤ s.length := by
  by_contra hlt
  obtain ⟨t, ht⟩ := h
  rw [List.drop_eq_nil_of_le (by omega)] at ht
  cases pat with
  | nil => exact hpat rfl
  | cons a as => simp at ht

theorem countOccs_pos (pat s : List Char) (i : Nat) (h : occursAt pat s i) :
    1 ≤ countOccs pat s := by
  by_cases hi : i ≤ s.length
  · have hmem : i ∈ (List.range (s.length + 1)).filter
        (fun j => pat.isPrefixOf (s.drop j)) := by
      rw [List.mem_filter]
      exact ⟨List.mem_range.mpr (by omega), (isPrefixOf_iff pat _).mpr h⟩
    exact List.length_pos_of_mem hmem
  · obtain ⟨t, ht⟩ := h
    rw [List.drop_eq_nil_of_le (by omega)] at ht
    have hpat : pat = [] := by
      cases pat with
      | nil => rfl
      | cons a as => simp at ht
    have hmem : 0 ∈ (List.range (s.length + 1)).filter
        (fun j => pat.isPrefixOf (s.drop j)) := by
      rw [List.mem_filter]
      refine ⟨List.mem_range.mpr (by omega), (isPrefixOf_iff pat _).mpr ?_⟩
      exact ⟨s.drop 0, by simp [hpat]⟩
    exact List.length_pos_of_mem hmem

theorem countOccs_two (pat s : List Char) (i j : Nat) (hpat : pat ≠ [])
    (hi : occursAt pat s i) (hj : occursAt pat s j) (hij : i < j) :
    2 ≤ countOccs pat s := by
  have hile : i ≤ s.length := occursAt_le_length pat s i hpat hi
  have hjle : j ≤ s.length := occursAt_le_length pat s j hpat hj
  have hmi : i ∈ (List.range (s.length + 1)).filter
      (fun k => pat.isPrefixOf (s.drop k)) := by
    rw [List.mem_filter]
    exact ⟨List.mem_range.mpr (by omega), (isPrefixOf_iff pat _).mpr hi⟩
  have hmj : j ∈ (List.range (s.length + 1)).filter
      (fun k => pat.isPrefixOf (s.drop k)) := by
    rw [List.mem_filter]
    exact ⟨List.mem_range.mpr (by omega), (isPrefixOf_iff pat _).mpr hj⟩
  have hsub : ({i, j} : Finset ℕ) ⊆
      ((List.range (s.length + 1)).filter
        (fun k => pat.isPrefixOf (s.drop k))).toFinset := by
    intro x hx
    rw [Finset.mem_insert, Finset.mem_singleton] at hx
    rcases hx with rfl | rfl <;> rw [List.mem_toFinset] <;> assumption
  calc 2 = ({i, j} : Finset ℕ).card := (Finset.card_pair (Nat.ne_of_lt hij)).symm
    _ ≤ _ := Finset.card_le_card hsub
    _ ≤ _ := List.toFinset_card_le _

theorem joinSep_data (sep : String) :
    ∀ l : List String,
      (joinSep sep l).data = joinSepL sep.data (l.map String.data) := by
  intro l
  induction l with
  | nil => rfl
  | cons x rest ih =>
    cases rest with
    | nil => rfl
    | cons y rest2 =>
      simp only [joinSep, joinSepL, List.map_cons, String.data_append]
      rw [← List.map_cons, ih]

theorem joinSepL_blocks_occur (sep : List Char) (hsep : sep ≠ []) :
    ∀ (blocks : List (List Char)) (intro outro : List Char),
      ∃ pos : Nat → Nat,
        (∀ i j, i < j → j < blocks.length → pos i < pos j) ∧
        (∀ i (h : i < blocks.length),
          intro.length ≤ pos i ∧
          occursAt (blocks.get ⟨i, h⟩)
            (intro ++ joinSepL sep blocks ++ outro) (pos i)) := by
  intro blocks
  induction blocks with
  | nil =>
    intro intro outro
    exact ⟨fun _ => 0, fun i j _ hj => by simp at hj, fun i h => by simp at h⟩
  | cons b bs ih =>
    intro intro outro
    cases bs with
    | nil =>
      refine ⟨fun _ => intro.length, fun i j hij hj => by simp at hj; omega,
        fun i h => ?_⟩
      have hi0 : i = 0 := by simp at h; omega
      subst hi0
      refine ⟨le_refl _, ?_⟩
      have hL : intro ++ joinSepL sep [b] ++ outro = intro ++ (b ++ outro) := by
        simp [joinSepL, List.append_assoc]
      rw [hL]
      exact occursAt_of_concat b intro outro
    | cons b2 bs2 =>
      obtain ⟨pos', hmono', hocc'⟩ := ih (intro ++ b ++ sep) outro
      have hL : intro ++ joinSepL sep (b :: b2 :: bs2) ++ outro =
          (intro ++ b ++ sep) ++ joinSepL sep (b2 :: bs2) ++ outro := by
        simp [joinSepL, List.append_assoc]
      refine ⟨fun n => match n with | 0 => intro.length | Nat.succ m => pos' m,
        ?_, ?_⟩
      · intro i j hij hj
        cases j with
        | zero => omega
        | succ j2 =>
          have hj2 : j2 < (b2 :: bs2).length := by
            simp at hj ⊢; omega
          cases i with
          | zero =>
            show intro.length < pos' j2
            have hb := (hocc' j2 hj2).1
            simp only [List.length_append] at hb
            have hsl : 0 < sep.length := List.length_pos.mpr hsep
            omega
          | succ i2 =>
            exact hmono' i2 j2 (by omega) hj2
      · intro i h
        cases i with
        | zero =>
          refine ⟨le_refl _, ?_⟩
          have hL2 : intro ++ joinSepL sep (b :: b2 :: bs2) ++ outro =
              intro ++ (b ++ (sep ++ (joinSepL sep (b2 :: bs2) ++ outro))) := by
            simp [joinSepL, List.append_assoc]
          rw [hL2]
          exact occursAt_of_concat b intro _
        | succ i2 =>
          have hi2 : i2 < (b2 :: bs2).length := by
            simp at h ⊢; omega
          obtain ⟨hb, hocc⟩ := hocc' i2 hi2
          constructor
          · show intro.length ≤ pos' i2
            simp only [List.length_append] at hb
            omega
          · have hget : (b :: b2 :: bs2).get ⟨i2 + 1, h⟩ =
                (b2 :: bs2).get ⟨i2, hi2⟩ := rfl
            rw [hget, hL]
            exact hocc

theorem extraction_prompt_data (cfg : PipelineConfig) (samples : List Sample) :
    (extraction_prompt cfg samples).data =
      cfg.promptIntro.data ++
        joinSepL (("\n\n" : String)).data
          (samples.map (fun s => (cfg.blockOf s).data)) ++
        cfg.promptOutro.data := by
  simp only [extraction_prompt, String.data_append, joinSep_data,
    List.map_map]
  rfl

theorem prompt_blocks_in_order (cfg : PipelineConfig) (samples : List Sample) :
    ∃ pos : Nat → Nat,
      (∀ i j, i < j → j < samples.length → pos i < pos j) ∧
      ∀ i (h : i < samples.length),
        occursAt (cfg.blockOf (samples.get ⟨i, h⟩)).data
          (extraction_prompt cfg samples).data (pos i) := by
  have hsep : (("\n\n" : String)).data ≠ [] := by decide
  obtain ⟨pos, hmono, hocc⟩ := joinSepL_blocks_occur (("\n\n" : String)).data
    hsep (samples.map (fun s => (cfg.blockOf s).data)) cfg.promptIntro.data
    cfg.promptOutro.data
  refine ⟨pos, ?_, ?_⟩
  · intro i j hij hj
    exact hmono i j hij (by simpa using hj)
  · intro i h
    have h' : i < (samples.map (fun s => (cfg.blockOf s).data)).length := by
      simpa using h
    have hres := (hocc i h').2
    have hget : (samples.map (fun s => (cfg.blockOf s).data)).get ⟨i, h'⟩ =
        (cfg.blockOf (samples.get ⟨i, h⟩)).data := by
      simp
    rw [hget] at hres
    rw [extraction_prompt_data]
    exact hres

/-- C3 (corrected, counterexample): for a single sample whose content is
the text of its own path, the path string `a.py` occurs at least twice in
the assembled prompt (once in the `### File:` heading, once in the fenced
content), so it does not appear exactly once. -/
theorem prompt_exactly_once_counterexample :
    ¬ (countOccs (("a.py" : String)).data
        ((extraction_prompt codingConfig [⟨"a.py", "a.py", 1⟩]).data) = 1) := by
  have hdata : (extraction_prompt codingConfig [⟨"a.py", "a.py", 1⟩]).data =
      (codingIntro.data ++ ("### File: " : String).data) ++
        ((("a.py" : String)).data ++ (("\n```python\n" : String).data ++
          ((("a.py" : String)).data ++
            (("\n```" : String).data ++ codingOutro.data)))) := by
    simp [extraction_prompt, codingConfig, codingBlock, joinSep,
      String.data_append, List.append_assoc]
  have hdata2 : (extraction_prompt codingConfig [⟨"a.py", "a.py", 1⟩]).data =
      ((codingIntro.data ++ ("### File: " : String).data) ++
        ((("a.py" : String)).data ++ ("\n```python\n" : String).data)) ++
        ((("a.py" : String)).data ++
          (("\n```" : String).data ++ codingOutro.data)) := by
    simp [extraction_prompt, codingConfig, codingBlock, joinSep,
      String.data_append, List.append_assoc]
  have h1 : occursAt (("a.py" : String)).data
      ((extraction_prompt codingConfig [⟨"a.py", "a.py", 1⟩]).data)
      ((codingIntro.data ++ ("### File: " : String).data)).length := by
    rw [hdata]
    exact occursAt_of_concat _ _ _
  have h2 : occursAt (("a.py" : String)).data
      ((extraction_prompt codingConfig [⟨"a.py", "a.py", 1⟩]).data)
      (((codingIntro.data ++ ("### File: " : String).data) ++
        ((("a.py" : String)).data ++
          ("\n```python\n" : String).data))).length := by
    rw [hdata2]
    exact occursAt_of_concat _ _ _
  have hlt : ((codingIntro.data ++ ("### File: " : String).data)).length <
      (((codingIntro.data ++ ("### File: " : String).data) ++
        ((("a.py" : String)).data ++
          ("\n```python\n" : String).data))).length := by
    simp
  have htwo := countOccs_two _ _ _ _ (by decide) h1 h2 hlt
  omega

/-- C3 (amended): prompt assembly is deterministic (equal sample lists give
equal prompt strings), the samples' blocks occur in the assembled prompt at
strictly increasing positions, i.e. in input order, and every sample's
relative path and full content appear verbatim at least once in the prompt
of either pipeline.  "Exactly once" does not hold in general: a sample
whose content contains the path text yields extra occurrences. -/
theorem prompt_deterministic_blocks_in_order :
    (∀ (cfg : PipelineConfig) (s1 s2 : List Sample),
      s1 = s2 → extraction_prompt cfg s1 = extraction_prompt cfg s2)
    ∧ (∀ (cfg : PipelineConfig) (samples : List Sample),
        ∃ pos : Nat → Nat,
          (∀ i j, i < j → j < samples.length → pos i < pos j) ∧
          ∀ i (h : i < samples.length),
            occursAt (cfg.blockOf (samples.get ⟨i, h⟩)).data
              (extraction_prompt cfg samples).data (pos i))
    ∧ (∀ (samples : List Sample) (s : Sample), s ∈ samples →
        1 ≤ countOccs s.path.data
              (extraction_prompt codingConfig samples).data
        ∧ 1 ≤ countOccs s.content.data
              (extraction_prompt codingConfig samples).data
        ∧ 1 ≤ countOccs s.path.data
              (extraction_prompt writingConfig samples).data
        ∧ 1 ≤ countOccs s.content.data
              (extraction_prompt writingConfig samples).data) := by
  refine ⟨fun cfg s1 s2 h => by rw [h], prompt_blocks_in_order, ?_⟩
  intro samples s hs
  obtain ⟨⟨i, hi⟩, hget⟩ := List.mem_iff_get.mp hs
  obtain ⟨posC, _, hoccC⟩ := prompt_blocks_in_order codingConfig samples
  obtain ⟨posW, _, hoccW⟩ := prompt_blocks_in_order writingConfig samples
  have hC := hoccC i hi
  have hW := hoccW i hi
  rw [hget] at hC hW
  have hblockC1 : (codingConfig.blockOf s).data =
      ("### File: " : String).data ++ (s.path.data ++
        (("\n```python\n" : String).data ++
          (s.content.data ++ ("\n```" : String).data))) := by
    simp [codingConfig, codingBlock, String.data_append, List.append_assoc]
  have hblockC2 : (codingConfig.blockOf s).data =
      (("### File: " : String).data ++ (s.path.data ++
        ("\n```python\n" : String).data)) ++
        (s.content.data ++ ("\n```" : String).data) := by
    simp [codingConfig, codingBlock, String.data_append, List.append_assoc]
  have hblockW1 : (writingConfig.blockOf s).data =
      ("### Sample: " : String).data ++ (s.path.data ++
        (("\n\n" : String).data ++ (s.content.data ++ ([] : List Char)))) := by
    simp [writingConfig, writingBlock, String.data_append, List.append_assoc]
  have hblockW2 : (writingConfig.blockOf s).data =
      (("### Sample: " : String).data ++ (s.path.data ++
        ("\n\n" : String).data)) ++ (s.content.data ++ ([] : List Char)) := by
    simp [writingConfig, writingBlock, String.data_append, List.append_assoc]
  refine ⟨?_, ?_, ?_, ?_⟩
  · exact countOccs_pos _ _ _ (occursAt_within _ _ _ _ _ (hblockC1 ▸ hC))
  · exact countOccs_pos _ _ _ (occursAt_within _ _ _ _ _ (hblockC2 ▸ hC))
  · exact countOccs_pos _ _ _ (occursAt_within _ _ _ _ _ (hblockW1 ▸ hW))
  · exact countOccs_pos _ _ _ (occursAt_within _ _ _ _ _ (hblockW2 ▸ hW))

/-- C3 witness: a concrete sample list for each conjunct. -/
theorem prompt_deterministic_blocks_in_order_witness :
    extraction_prompt codingConfig [] = extraction_prompt codingConfig []
    ∧ (∃ pos : Nat → Nat,
        (∀ i j, i < j → j < ([⟨"a.py", "x", 1⟩] : List Sample).length →
          pos i < pos j) ∧
        ∀ i (h : i < ([⟨"a.py", "x", 1⟩] : List Sample).length),
          occursAt (codingConfig.blockOf
              (([⟨"a.py", "x", 1⟩] : List Sample).get ⟨i, h⟩)).data
            (extraction_prompt codingConfig [⟨"a.py", "x", 1⟩]).data (pos i))
    ∧ (1 ≤ countOccs (Sample.path ⟨"a.py", "x", 1⟩).data
          (extraction_prompt codingConfig [⟨"a.py", "x", 1⟩]).data
       ∧ 1 ≤ countOccs (Sample.content ⟨"a.py", "x", 1⟩).data
          (extraction_prompt codingConfig [⟨"a.py", "x", 1⟩]).data
       ∧ 1 ≤ countOccs (Sample.path ⟨"a.py", "x", 1⟩).data
          (extraction_prompt writingConfig [⟨"a.py", "x", 1⟩]).data
       ∧ 1 ≤ countOccs (Sample.content ⟨"a.py", "x", 1⟩).data
          (extraction_prompt writingConfig [⟨"a.py", "x", 1⟩]).data) :=
  ⟨prompt_deterministic_blocks_in_order.1 codingConfig [] [] rfl,
   prompt_deterministic_blocks_in_order.2.1 codingConfig [⟨"a.py", "x", 1⟩],
   prompt_deterministic_blocks_in_order.2.2 [⟨"a.py", "x", 1⟩]
     ⟨"a.py", "x", 1⟩ (by decide)⟩
